import Mathlib

/-!
Shallow embedding of the openpoker strategy-tree interpreter and trainer
session engine (src/api/app/routers/trainer.py and src/api/app/routers/hands.py,
plus the legacy copy under src/texassolver-web).  Python dicts are modelled as
ordered association lists; a missing or empty dict field is modelled as `[]`
(Python's truthiness `or` collapses the two).  Floats are modelled as rationals.
-/

/-- Suit codes, from `SUITS = ["c", "d", "h", "s"]` (suits are single
characters of the card strings, so we model them as `Char`). -/
def SUITS : List Char := ['c', 'd', 'h', 's']

/-- A node of the parsed solver result document (a JSON tree).  Fields:
`node_type`, `childrens` (action children), `deal_cards` (the chance-children
field name the trainer reads), `dealcards` (the chance-children field name the
hand-analysis code reads), the per-combo strategy table
(`node["strategy"]["strategy"]`), and the optional `player` marker. -/
inductive Node : Type where
  | mk : String → List (String × Node) → List (String × Node) →
      List (String × Node) → List (String × List ℚ) → Option Int → Node

/-- Field `node_type` of a tree node. -/
def Node.node_type : Node → String
  | .mk t _ _ _ _ _ => t

/-- Field `childrens` of a tree node (absent modelled as `[]`). -/
def Node.childrens : Node → List (String × Node)
  | .mk _ c _ _ _ _ => c

/-- Field `deal_cards` of a tree node (absent modelled as `[]`). -/
def Node.deal_cards : Node → List (String × Node)
  | .mk _ _ d _ _ _ => d

/-- Field `dealcards` of a tree node (absent modelled as `[]`). -/
def Node.dealcards : Node → List (String × Node)
  | .mk _ _ _ d _ _ => d

/-- The strategy table `node.get("strategy", {}).get("strategy", {})`
(absent modelled as `[]`). -/
def Node.strategy : Node → List (String × List ℚ)
  | .mk _ _ _ _ s _ => s

/-- Field `player` of a tree node (`node.get("player")`). -/
def Node.player : Node → Option Int
  | .mk _ _ _ _ _ p => p

instance : Inhabited Node := ⟨Node.mk "" [] [] [] [] none⟩

/-- Association-list lookup, modelling Python `dict.get(key)` (JSON object
keys are unique, so first-match lookup is faithful). -/
def lookupBy {β : Type} : List (String × β) → String → Option β
  | [], _ => none
  | (k, v) :: rest, key => if k = key then some v else lookupBy rest key

/-- A two-character card string `r + s` built from rank and suit characters
(Python concatenates the 1-character strings). -/
def mkCard (r s : Char) : String := String.mk [r, s]

/-- A four-character combo string `r1 + s1 + r2 + s2`. -/
def mkCombo (r1 s1 r2 s2 : Char) : String := String.mk [r1, s1, r2, s2]

/-- The child map the trainer's `_navigate_tree` consults:
`node.get("childrens") or node.get("deal_cards") or {}`. -/
def trainerChildrenOf (node : Node) : List (String × Node) :=
  match node.childrens with
  | [] => node.deal_cards
  | c => c

/-- `_navigate_tree` from src/api/app/routers/trainer.py (identical in the
legacy copy): walk `node_path`, at each step looking the step up in
`childrens or deal_cards or {}`; a missing key yields `None`. -/
def navigate_tree : Node → List String → Option Node
  | node, [] => some node
  | node, step :: rest =>
    match lookupBy (trainerChildrenOf node) step with
    | none => none
    | some child => navigate_tree child rest

/-- The child map `_gto_navigate_tree` (src/api/app/routers/hands.py)
consults: `dealcards` when `node_type == "chance_node"`, else `childrens`. -/
def handsChildrenOf (node : Node) : List (String × Node) :=
  if node.node_type = "chance_node" then node.dealcards else node.childrens

/-- `_gto_navigate_tree` from src/api/app/routers/hands.py. -/
def gto_navigate_tree : Node → List String → Option Node
  | node, [] => some node
  | node, step :: rest =>
    match lookupBy (handsChildrenOf node) step with
    | none => none
    | some child => gto_navigate_tree child rest

/-- Pair each list element with its index starting at `i`, modelling
Python `enumerate` producing `{"name": k, "index": i}` entries. -/
def withIdx : List String → Nat → List (String × Nat)
  | [], _ => []
  | k :: ks, i => (k, i) :: withIdx ks (i + 1)

/-- `_get_action_entries` from src/api/app/routers/trainer.py (textually
identical to `_gto_get_action_entries` in hands.py and to the legacy copy):
entries are the `childrens` keys with indices, with a synthesized `FOLD` at
index 0 when the first strategy vector is one longer than the key list. -/
def get_action_entries (node : Node) : List (String × Nat) :=
  let child_keys := node.childrens.map Prod.fst
  let strategy := node.strategy
  if strategy = [] then withIdx child_keys 0
  else
    let sample := ((strategy.head?).map Prod.snd).getD []
    if sample.length = child_keys.length + 1 then
      ("FOLD", 0) :: withIdx child_keys 1
    else withIdx child_keys 0

/-- The suit relabeling map `dict(zip(SUITS, perm))` applied to a suit
character.  Python raises `KeyError` for a character outside `SUITS`; the
model returns the character unchanged there, and every theorem about
isomorphism search assumes the combo's suits lie in `SUITS`. -/
def suitMap (perm : List Char) (s : Char) : Char :=
  ((SUITS.zip perm).lookup s).getD s

/-- `_find_iso_combo` from src/api/app/routers/trainer.py (identical in the
legacy copy): try every suit permutation applied to the combo's two suits,
keeping the combo's given rank order, and return the first candidate that is
a key of the strategy table.  (Python iterates `set(permutations(SUITS))` in
an unspecified order; the model fixes one order, which is faithful for the
order-independent properties proved below.)  A combo shorter than four
characters makes Python raise `IndexError`; the model returns `none`. -/
def find_iso_combo (strategy : List (String × List ℚ)) (combo : String) :
    Option String :=
  match combo.data with
  | r1 :: s1 :: r2 :: s2 :: _ =>
    SUITS.permutations'.findSome? fun perm =>
      let cand := mkCombo r1 (suitMap perm s1) r2 (suitMap perm s2)
      if (lookupBy strategy cand).isSome then some cand else none
  | _ => none

/-- `_gto_find_iso_combo` from src/api/app/routers/hands.py: like
`find_iso_combo` but trying both rank orderings of the combo (original
first, then swapped) against every suit permutation. -/
def gto_find_iso_combo (strategy : List (String × List ℚ)) (combo : String) :
    Option String :=
  match combo.data with
  | r1 :: s1 :: r2 :: s2 :: _ =>
    [(r1, s1, r2, s2), (r2, s2, r1, s1)].findSome? fun o =>
      SUITS.permutations'.findSome? fun perm =>
        let cand := mkCombo o.1 (suitMap perm o.2.1) o.2.2.1 (suitMap perm o.2.2.2)
        if (lookupBy strategy cand).isSome then some cand else none
  | _ => none

/-- The frequency-vector resolution step of the trainer's
`_gto_freq_for_combo`: `strategy.get(hero_combo)`, falling back to
`strategy.get(_find_iso_combo(strategy, hero_combo))`. -/
def trainerResolveFreqs (strategy : List (String × List ℚ)) (combo : String) :
    Option (List ℚ) :=
  match lookupBy strategy combo with
  | some v => some v
  | none =>
    match find_iso_combo strategy combo with
    | some k => lookupBy strategy k
    | none => none

/-- The frequency-vector resolution step of the hands-side
`_gto_freq_for_combo`, using the both-orderings isomorphism search. -/
def handsResolveFreqs (strategy : List (String × List ℚ)) (combo : String) :
    Option (List ℚ) :=
  match lookupBy strategy combo with
  | some v => some v
  | none =>
    match gto_find_iso_combo strategy combo with
    | some k => lookupBy strategy k
    | none => none

/-- The population-average fallback of `_gto_freq_for_combo`:
`[v[idx] for v in strategy.values() if len(v) > idx]`, then mean (0.0 when
no vector is long enough). -/
def populationMean (strategy : List (String × List ℚ)) (idx : Nat) : ℚ :=
  let all_vals := ((strategy.map Prod.snd).filter fun v => idx < v.length).map
    fun v => v.getD idx 0
  if all_vals = [] then 0 else all_vals.sum / all_vals.length

/-- Core of `_gto_freq_for_combo`, parameterized by the resolved frequency
vector (the trainer and hands versions differ only in how `freqs` is
resolved).  Mirrors lines 236-252 of src/api/app/routers/trainer.py. -/
def freqForCombo (node : Node) (resolved : Option (List ℚ))
    (action_name : String) : ℚ :=
  let entries := get_action_entries node
  if node.strategy = [] then 1 / (max entries.length 1 : ℕ)
  else
    match entries.find? fun e => e.1 = action_name with
    | none => 0
    | some e =>
      match resolved with
      | none => populationMean node.strategy e.2
      | some freqs => if e.2 < freqs.length then freqs.getD e.2 0 else 0

/-- `_gto_freq_for_combo` from src/api/app/routers/trainer.py. -/
def gto_freq_for_combo (node : Node) (hero_combo action_name : String) : ℚ :=
  freqForCombo node (trainerResolveFreqs node.strategy hero_combo) action_name

/-- `_gto_freq_for_combo` from src/api/app/routers/hands.py (identical
except that it resolves isomorphism with `_gto_find_iso_combo`). -/
def gto_freq_for_combo_hands (node : Node) (hero_combo action_name : String) : ℚ :=
  freqForCombo node (handsResolveFreqs node.strategy hero_combo) action_name

/-- `_grade_action` from src/api/app/routers/hands.py. -/
def grade_action (gto_freq : ℚ) : String :=
  if gto_freq ≥ 0.75 then "best"
  else if gto_freq ≥ 0.40 then "correct"
  else if gto_freq ≥ 0.15 then "inaccuracy"
  else if gto_freq ≥ 0.05 then "wrong"
  else "blunder"

/-- The inverse-CDF loop of `_sample_villain_action`:
`for e, f in zip(entries, freqs): cumulative += f; if r <= cumulative: return e["name"]`,
returning `none` when the loop falls through. -/
def sampleLoop : List ((String × Nat) × ℚ) → ℚ → ℚ → Option String
  | [], _, _ => none
  | (e, f) :: rest, cum, r =>
    if r ≤ cum + f then some e.1 else sampleLoop rest (cum + f) r

/-- The frequency vector `_sample_villain_action` selects before sampling:
the villain combo's vector when the combo is truthy and its direct or
isomorphic lookup yields a truthy (nonempty) vector, else the
population-average vector `[sum(v[i] for v in all_freqs) / len(all_freqs)]`
over `i < len(entries)`.  (Python raises `IndexError` when some stored vector
is shorter than the entry list; the model reads a 0 default there, and the
sampling theorem assumes vectors of adequate length.) -/
def sampleSelectedFreqs (node : Node) (villain_combo : Option String) : List ℚ :=
  let strategy := node.strategy
  let entries := get_action_entries node
  let pop : List ℚ := (List.range entries.length).map fun i =>
    ((strategy.map fun p => p.2.getD i 0).sum) / strategy.length
  let viaKey : Option (List ℚ) :=
    match villain_combo with
    | none => none
    | some vc =>
      if vc = "" then none
      else
        match lookupBy strategy vc with
        | some v =>
          if v = [] then lookupBy strategy ((find_iso_combo strategy vc).getD "")
          else some v
        | none => lookupBy strategy ((find_iso_combo strategy vc).getD "")
  match viaKey with
  | some v => if v = [] then pop else v
  | none => pop

/-- `_sample_villain_action` from src/api/app/routers/trainer.py (identical
in the legacy copy).  The two random draws are passed explicitly: `r` models
`random.random()` and `pick` models the index drawn by `random.choice` in
the no-strategy fallback. -/
def sample_villain_action (node : Node) (villain_combo : Option String)
    (r : ℚ) (pick : Nat) : String :=
  let entries := get_action_entries node
  let strategy := node.strategy
  if strategy = [] ∨ entries = [] then
    match node.childrens.map Prod.fst with
    | [] => "CHECK"
    | ck => ck.getD (pick % ck.length) "CHECK"
  else
    let freqs := sampleSelectedFreqs node villain_combo
    match sampleLoop (entries.zip freqs) 0 r with
    | some name => name
    | none => ((entries.getLast?).map Prod.fst).getD "CHECK"

/-- Python `str.split(sep)` for a one-character separator, over the
character list of the string (empty pieces are kept, as in Python). -/
def splitOnSep (sep : Char) : List Char → List (List Char)
  | [] => [[]]
  | c :: cs =>
    let rest := splitOnSep sep cs
    if c = sep then [] :: rest
    else
      match rest with
      | [] => [[c]]
      | p :: ps => (c :: p) :: ps

/-- Python `str.strip()`: drop whitespace from both ends. -/
def pyStrip (cs : List Char) : List Char :=
  ((cs.dropWhile Char.isWhitespace).reverse.dropWhile Char.isWhitespace).reverse

/-- The `i < j` suit pairs produced by
`for i, s1 in enumerate(suits): for s2 in suits[i+1:]` in the pair branch. -/
def upairs : List Char → List (Char × Char)
  | [] => []
  | x :: xs => (xs.map fun y => (x, y)) ++ upairs xs

/-- The ordered suit pairs with `s1 != s2` produced by the offsuit loops
`for s1 in SUITS: for s2 in SUITS: if s1 != s2`. -/
def offsuitPairs : List (Char × Char) :=
  SUITS.flatMap fun s1 => (SUITS.filter fun s2 => s2 ≠ s1).map fun s2 => (s1, s2)

/-- Shared shape of the expansion loops of `_parse_range_to_combos`: for
each suit pair build `c1 = r1 + s1`, `c2 = r2 + s2` and append `c1 + c2`
when neither card is on the board. -/
def combosFromSuitPairs (r1 r2 : Char) (pairs : List (Char × Char))
    (board_cards : List String) : List String :=
  pairs.filterMap fun p =>
    let c1 := mkCard r1 p.1
    let c2 := mkCard r2 p.2
    if c1 ∉ board_cards ∧ c2 ∉ board_cards then some (c1 ++ c2) else none

/-- The per-token body of `_parse_range_to_combos` (trainer.py lines
169-198): a 2-character hand is a pair (upper-triangle suit pairs) or a
both-orders rank pair; a 3-character hand is suited (`s`) or offsuit (`o`);
anything else contributes nothing. -/
def expandToken (hand : List Char) (board_cards : List String) : List String :=
  match hand with
  | [r1, r2] =>
    if r1 = r2 then combosFromSuitPairs r1 r2 (upairs SUITS) board_cards
    else combosFromSuitPairs r1 r2 offsuitPairs board_cards
  | [r1, r2, suf] =>
    if suf = 's' then
      combosFromSuitPairs r1 r2 (SUITS.map fun s => (s, s)) board_cards
    else if suf = 'o' then combosFromSuitPairs r1 r2 offsuitPairs board_cards
    else []
  | _ => []

/-- `_parse_range_to_combos` from src/api/app/routers/trainer.py: split the
range string on commas, strip each token and drop empties, strip an optional
`:freq` suffix, and expand each token against the board. -/
def parse_range_to_combos (range_str : String) (board_cards : List String) :
    List String :=
  let tokens := ((splitOnSep ',' range_str.data).map pyStrip).filter fun t => t ≠ []
  tokens.flatMap fun token =>
    expandToken (pyStrip ((splitOnSep ':' token).headD [])) board_cards

/-- The empty-expansion check of `start_session` (trainer.py lines 434-436):
an empty combo list is surfaced as an HTTP 500 internal error. -/
def startComboCheck (combos : List String) : Except String (List String) :=
  if combos = [] then Except.error "No valid combos after board removal"
  else Except.ok combos

/-- Python `round(x, 4)` modelled on rationals.  (CPython rounds the binary
float half-to-even; no value considered in this development sits at a tie,
so the standard `round` is faithful at every point used.) -/
def round4 (x : ℚ) : ℚ := (round (x * 10000) : ℤ) / 10000

/-- One recorded hero decision, as built by `submit_action`
(trainer.py lines 538-545). -/
structure DecisionRecord where
  node_path : List String
  chosen_action : String
  gto_freq : ℚ
  all_actions : List (String × ℚ)
  pot_weight : ℚ
  street : String

/-- The score computation of `complete_session` in
src/api/app/routers/trainer.py (lines 647-651): the plain mean of the
decisions' GTO frequencies rounded to 4 decimal places, and `0.0` for an
empty decision list. -/
def complete_gto_score (decisions : List DecisionRecord) : ℚ :=
  if decisions.isEmpty then 0
  else round4 ((decisions.map fun d => d.gto_freq).sum / decisions.length)

/-- The score computation of `complete_session` in the legacy
src/texassolver-web/api/app/routers/trainer.py (lines 538-546): a
pot-weight-weighted mean when the total weight is positive, else the plain
mean; `0.0` for an empty decision list. -/
def legacy_complete_gto_score (decisions : List DecisionRecord) : ℚ :=
  if decisions.isEmpty then 0
  else
    let total_weight := (decisions.map fun d => d.pot_weight).sum
    if total_weight > 0 then
      round4 ((decisions.map fun d => d.gto_freq * d.pot_weight).sum / total_weight)
    else round4 ((decisions.map fun d => d.gto_freq).sum / decisions.length)

/-- The regex `^[2-9TJQKA][cdhs]$` (`_CARD_PAT`) deciding whether a node-path
step is a dealt community card. -/
def isCardToken (s : String) : Bool :=
  match s.data with
  | [r, su] =>
    (['2', '3', '4', '5', '6', '7', '8', '9', 'T', 'J', 'Q', 'K', 'A'].contains r)
      && SUITS.contains su
  | _ => false

/-- `_compute_street` from src/api/app/routers/trainer.py: street from the
count of dealt-card steps in the node path. -/
def compute_street (node_path : List String) : String :=
  let n := (node_path.filter fun s => isCardToken s).length
  if n = 0 then "flop" else if n = 1 then "turn" else "river"

/-- `_available_actions` from src/api/app/routers/trainer.py: each action
entry's name with its hero frequency rounded to 4 decimal places. -/
def available_actions (node : Node) (hero_combo : String) : List (String × ℚ) :=
  (get_action_entries node).map fun e =>
    (e.1, round4 (gto_freq_for_combo node hero_combo e.1))

/-- `_is_villain_node` from src/api/app/routers/trainer.py: use the solver's
`player` field (0 = OOP, 1 = IP) when present, else fall back to a direct
(no-isomorphism) strategy-key lookup of the hero combo. -/
def is_villain_node (node : Node) (hero_position hero_combo : String) : Bool :=
  match node.player with
  | some p =>
    let node_is_oop : Bool := p == 0
    let hero_is_oop : Bool := hero_position == "oop"
    node_is_oop != hero_is_oop
  | none =>
    if node.strategy = [] then false
    else (lookupBy node.strategy hero_combo).isNone

/-- Explicit stream of random draws: `picks` feeds `random.choice` (as an
index into the choice list) and `reals` feeds `random.random()`. -/
structure Rng where
  picks : List Nat
  reals : List ℚ

/-- The quadruple `_advance_to_hero` returns:
`(next_node, updated_node_path, new_board_cards, last_villain_action)`. -/
structure AdvanceResult where
  next : Option Node
  node_path : List String
  new_board_cards : List String
  last_villain_action : Option String

/-- The `while next_node is not None` loop of `_advance_to_hero`
(trainer.py lines 337-370), with explicit fuel (the Python loop terminates
because the path grows on every iteration and the tree is finite; every
theorem below supplies sufficient fuel).  At a chance node a card is drawn
from ALL `deal_cards` keys; at a villain action node an action is sampled
and the tree re-navigated from the root; a hero action node stops the loop;
an unknown node type is terminal. -/
def advanceLoop (tree : Node) (hero_position hero_combo : String) :
    Nat → Option Node → List String → List String → Option String → Rng →
    AdvanceResult
  | _, none, path, nb, lv, _ => ⟨none, path, nb, lv⟩
  | 0, some n, path, nb, lv, _ => ⟨some n, path, nb, lv⟩
  | fuel + 1, some n, path, nb, lv, rng =>
    if n.node_type = "chance_node" then
      match n.deal_cards with
      | [] => ⟨none, path, nb, lv⟩
      | dc =>
        let i := rng.picks.headD 0 % dc.length
        let chosen := dc.getD i ("", default)
        advanceLoop tree hero_position hero_combo fuel (some chosen.2)
          (path ++ [chosen.1]) (nb ++ [chosen.1]) lv
          ⟨rng.picks.tail, rng.reals⟩
    else if n.node_type = "action_node" then
      if is_villain_node n hero_position hero_combo then
        match get_action_entries n with
        | [] => ⟨none, path, nb, lv⟩
        | _ =>
          let va := sample_villain_action n none (rng.reals.headD 0)
            (rng.picks.headD 0)
          advanceLoop tree hero_position hero_combo fuel
            (navigate_tree tree (path ++ [va])) (path ++ [va]) nb (some va)
            ⟨rng.picks.tail, rng.reals.tail⟩
      else ⟨some n, path, nb, lv⟩
    else ⟨none, path, nb, lv⟩

/-- `_advance_to_hero` from src/api/app/routers/trainer.py. -/
def advance_to_hero (fuel : Nat) (tree : Node) (node_path : List String)
    (hero_position hero_combo : String) (rng : Rng) : AdvanceResult :=
  advanceLoop tree hero_position hero_combo fuel
    (navigate_tree tree node_path) node_path [] none rng

/-- The externally relevant outcome of one `submit_action` call. -/
structure SubmitResult where
  decision : DecisionRecord
  node_path : List String
  is_terminal : Bool
  node_type_out : String

/-- The pure core of `submit_action` (trainer.py lines 519-622): resolve the
session's stored path (`None` models the HTTP 400 "Invalid node path"),
record the decision for the submitted action unconditionally, append the
action to the path, auto-advance, and report the resulting state (node type
`"terminal"` with `is_terminal = True` when the advance reaches no node). -/
def submit_action_core (fuel : Nat) (tree : Node) (node_path : List String)
    (hero_position hero_combo chosen_action : String)
    (pot_at_decision initial_pot : ℚ) (rng : Rng) : Option SubmitResult :=
  match navigate_tree tree node_path with
  | none => none
  | some current_node =>
    let dec : DecisionRecord :=
      { node_path := node_path
        chosen_action := chosen_action
        gto_freq := gto_freq_for_combo current_node hero_combo chosen_action
        all_actions := available_actions current_node hero_combo
        pot_weight := pot_at_decision / max initial_pot 1
        street := compute_street node_path }
    let adv := advance_to_hero fuel tree (node_path ++ [chosen_action])
      hero_position hero_combo rng
    match adv.next with
    | none =>
      some { decision := dec, node_path := adv.node_path,
             is_terminal := true, node_type_out := "terminal" }
    | some n =>
      let actions :=
        if n.node_type = "action_node" then available_actions n hero_combo
        else []
      some { decision := dec, node_path := adv.node_path,
             is_terminal := actions.isEmpty, node_type_out := n.node_type }

def C4dec1 : DecisionRecord := ⟨[], "CHECK", 0.8, [], 1, "flop"⟩

def C4dec2 : DecisionRecord := ⟨[], "CHECK", 0.4, [], 3, "flop"⟩

theorem C4_counterexample :
    legacy_complete_gto_score [C4dec1, C4dec2]
      ≠ round4 ((C4dec1.gto_freq + C4dec2.gto_freq) / 2) := by
  simp only [legacy_complete_gto_score, round4, C4dec1, C4dec2, List.map_cons,
    List.map_nil, List.sum_cons, List.sum_nil, List.isEmpty_cons, List.length_cons,
    List.length_nil]
  norm_num [round_eq]

theorem C4_amended :
    (∀ ds : List DecisionRecord, ds ≠ [] →
      complete_gto_score ds
        = round4 ((ds.map fun d => d.gto_freq).sum / ds.length))
    ∧ complete_gto_score [] = 0
    ∧ (∀ d1 d2 d3 : DecisionRecord, d1.gto_freq = 0.8 → d2.gto_freq = 0.4 →
        d3.gto_freq = 1.0 → complete_gto_score [d1, d2, d3] = 0.7333)
    ∧ (∀ ds : List DecisionRecord, ds ≠ [] →
        (ds.map fun d => d.pot_weight).sum > 0 →
        legacy_complete_gto_score ds
          = round4 ((ds.map fun d => d.gto_freq * d.pot_weight).sum
              / (ds.map fun d => d.pot_weight).sum)) := by
  refine ⟨fun ds h => ?_, by simp [complete_gto_score],
    fun d1 d2 d3 h1 h2 h3 => ?_, fun ds h hw => ?_⟩
  · simp [complete_gto_score, List.isEmpty_iff, h]
  · simp only [complete_gto_score, List.isEmpty_cons, List.map_cons, List.map_nil,
      List.sum_cons, List.sum_nil, List.length_cons, List.length_nil, h1, h2, h3,
      round4]
    norm_num [round_eq]
  · simp only [legacy_complete_gto_score, List.isEmpty_iff, h, if_false, hw,
      if_true, gt_iff_lt]

theorem C4_witness :
    ([C4dec1] : List DecisionRecord) ≠ []
    ∧ complete_gto_score [C4dec1]
        = round4 (([C4dec1].map fun d => d.gto_freq).sum / ([C4dec1] : List DecisionRecord).length)
    ∧ C4dec1.gto_freq = 0.8
    ∧ complete_gto_score [C4dec1, C4dec1, C4dec1] = round4 0.8
    ∧ ([C4dec1].map fun d => d.pot_weight).sum > 0
    ∧ legacy_complete_gto_score [C4dec1]
        = round4 (([C4dec1].map fun d => d.gto_freq * d.pot_weight).sum
            / ([C4dec1].map fun d => d.pot_weight).sum) := by
  refine ⟨by simp, C4_amended.1 [C4dec1] (by simp), by norm_num [C4dec1], ?_, ?_, ?_⟩
  · have := C4_amended.1 [C4dec1, C4dec1, C4dec1] (by simp)
    rw [this]
    norm_num [C4dec1]
  · norm_num [C4dec1]
  · exact C4_amended.2.2.2 [C4dec1] (by simp) (by norm_num [C4dec1])

/-- Pair each (entry, frequency) with the running cumulative frequency in
place of the frequency: element `i` carries `acc + f_0 + ... + f_i`. -/
def cumPairs (acc : ℚ) : List ((String × Nat) × ℚ) → List ((String × Nat) × ℚ)
  | [] => []
  | (e, f) :: rest => (e, acc + f) :: cumPairs (acc + f) rest

theorem sampleLoop_eq_find (l : List ((String × Nat) × ℚ)) :
    ∀ acc r : ℚ,
      sampleLoop l acc r
        = ((cumPairs acc l).find? fun p => decide (r ≤ p.2)).map fun p => p.1.1 := by
  induction l with
  | nil => intro acc r; simp [sampleLoop, cumPairs]
  | cons hd tl ih =>
    intro acc r
    obtain ⟨e, f⟩ := hd
    simp only [sampleLoop, cumPairs, List.find?_cons]
    by_cases h : r ≤ acc + f
    · simp [h]
    · simp only [h, if_false, decide_eq_true_eq]
      rw [ih (acc + f) r]
      simp [h]

/-- C6: at an action node with a nonempty ActionEntry list and a strategy
table, with the frequency vector the sampler selects (combo-specific or
population-average) matching the entry list in length, the villain sampler
returns the first entry (in order) whose running cumulative frequency is at
least the drawn `r`, and the last entry's name when every running sum stays
below `r`. -/
theorem C6_sampler (node : Node) (vc : Option String) (r : ℚ) (pick : Nat)
    (hs : node.strategy ≠ []) (he : get_action_entries node ≠ [])
    (hlen : (sampleSelectedFreqs node vc).length = (get_action_entries node).length) :
    sample_villain_action node vc r pick
      = match (cumPairs 0 ((get_action_entries node).zip
            (sampleSelectedFreqs node vc))).find? (fun p => decide (r ≤ p.2)) with
        | some p => p.1.1
        | none => (((get_action_entries node).getLast?).getD ("", 0)).1 := by
  unfold sample_villain_action
  rw [if_neg (by push_neg; exact ⟨hs, he⟩)]
  simp only [sampleLoop_eq_find]
  cases hf : (cumPairs 0 ((get_action_entries node).zip
      (sampleSelectedFreqs node vc))).find? (fun p => decide (r ≤ p.2)) with
  | some p => simp [hf]
  | none =>
    simp only [hf, Option.map_none]
    obtain ⟨x, hx⟩ : ∃ x, (get_action_entries node).getLast? = some x := by
      rw [List.getLast?_eq_getLast _ he]
      exact ⟨_, rfl⟩
    simp [hx]

/-- Leaf action node used by concrete examples. -/
def leafNode : Node := Node.mk "action_node" [] [] [] [] none

/-- Concrete two-action node with a one-combo strategy table. -/
def C6node : Node :=
  Node.mk "action_node" [("CHECK", leafNode), ("BET", leafNode)] [] []
    [("AhAd", [1, 0])] none

theorem C6_entries_eval : get_action_entries C6node = [("CHECK", 0), ("BET", 1)] := by
  simp [get_action_entries, C6node, Node.childrens, Node.strategy, withIdx]

theorem C6_witness :
    C6node.strategy ≠ [] ∧ get_action_entries C6node ≠ []
    ∧ (sampleSelectedFreqs C6node none).length = (get_action_entries C6node).length
    ∧ sample_villain_action C6node none (1/2) 0 = "CHECK" := by
  have h1 : C6node.strategy ≠ [] := by simp [C6node, Node.strategy]
  have h2 : get_action_entries C6node ≠ [] := by rw [C6_entries_eval]; simp
  have h4 : sampleSelectedFreqs C6node none = [1, 0] := by
    unfold sampleSelectedFreqs
    simp only [C6_entries_eval]
    simp [C6node, Node.strategy, List.range_succ]
  have h3 : (sampleSelectedFreqs C6node none).length
      = (get_action_entries C6node).length := by
    rw [h4, C6_entries_eval]
    rfl
  refine ⟨h1, h2, h3, ?_⟩
  rw [C6_sampler C6node none (1/2) 0 h1 h2 h3]
  simp only [C6_entries_eval, h4]
  norm_num [cumPairs, List.find?]

theorem populationMean_of_long (strategy : List (String × List ℚ)) (idx : Nat)
    (hs : strategy ≠ []) (hlen : ∀ v ∈ strategy.map Prod.snd, idx < v.length) :
    populationMean strategy idx
      = ((strategy.map fun p => p.2.getD idx 0).sum) / strategy.length := by
  unfold populationMean
  rw [List.filter_eq_self.mpr (fun v hv => by simpa using hlen v hv)]
  have hne : (strategy.map Prod.snd).map (fun v => v.getD idx 0) ≠ [] := by
    simp [hs]
  rw [if_neg hne]
  rw [List.map_map, List.length_map]
  rfl

/-- C3: for an action label found in a node's ActionEntry list, both
frequency implementations return (i) the uniform `1/entryCount` when the
node carries no strategy table, (ii) the resolved combo's vector entry at
the action's index when the combo resolves directly or isomorphically, and
(iii) the mean of that index across every combo's vector when it does not
resolve (assuming every stored vector is long enough, as the entry-length
invariant guarantees). -/
theorem C3_freq :
    (∀ node : Node, node.strategy = [] → get_action_entries node ≠ [] →
      ∀ combo a : String,
        gto_freq_for_combo node combo a = 1 / ((get_action_entries node).length : ℚ)
        ∧ gto_freq_for_combo_hands node combo a
            = 1 / ((get_action_entries node).length : ℚ))
    ∧ (∀ (node : Node) (combo a : String) (idx : Nat) (v : List ℚ),
        node.strategy ≠ [] →
        (get_action_entries node).find? (fun e => e.1 = a) = some (a, idx) →
        trainerResolveFreqs node.strategy combo = some v → idx < v.length →
        gto_freq_for_combo node combo a = v.getD idx 0)
    ∧ (∀ (node : Node) (combo a : String) (idx : Nat) (v : List ℚ),
        node.strategy ≠ [] →
        (get_action_entries node).find? (fun e => e.1 = a) = some (a, idx) →
        handsResolveFreqs node.strategy combo = some v → idx < v.length →
        gto_freq_for_combo_hands node combo a = v.getD idx 0)
    ∧ (∀ (node : Node) (combo a : String) (idx : Nat),
        node.strategy ≠ [] →
        (get_action_entries node).find? (fun e => e.1 = a) = some (a, idx) →
        trainerResolveFreqs node.strategy combo = none →
        (∀ v ∈ node.strategy.map Prod.snd, idx < v.length) →
        gto_freq_for_combo node combo a
          = ((node.strategy.map fun p => p.2.getD idx 0).sum) / node.strategy.length)
    ∧ (∀ (node : Node) (combo a : String) (idx : Nat),
        node.strategy ≠ [] →
        (get_action_entries node).find? (fun e => e.1 = a) = some (a, idx) →
        handsResolveFreqs node.strategy combo = none →
        (∀ v ∈ node.strategy.map Prod.snd, idx < v.length) →
        gto_freq_for_combo_hands node combo a
          = ((node.strategy.map fun p => p.2.getD idx 0).sum) / node.strategy.length) := by
  refine ⟨fun node hs he combo a => ?_, fun node combo a idx v hs hf hr hi => ?_,
    fun node combo a idx v hs hf hr hi => ?_, fun node combo a idx hs hf hr hl => ?_,
    fun node combo a idx hs hf hr hl => ?_⟩
  · have hmax : max (get_action_entries node).length 1 = (get_action_entries node).length := by
      have : 1 ≤ (get_action_entries node).length := by
        cases hq : get_action_entries node with
        | nil => exact absurd hq he
        | cons x xs => simp
      omega
    constructor <;>
      simp [gto_freq_for_combo, gto_freq_for_combo_hands, freqForCombo, hs, hmax]
  · simp [gto_freq_for_combo, freqForCombo, hs, hf, hr, hi]
  · simp [gto_freq_for_combo_hands, freqForCombo, hs, hf, hr, hi]
  · simp [gto_freq_for_combo, freqForCombo, hs, hf, hr,
      populationMean_of_long node.strategy idx hs hl]
  · simp [gto_freq_for_combo_hands, freqForCombo, hs, hf, hr,
      populationMean_of_long node.strategy idx hs hl]

/-- Concrete action node with two children and no strategy table. -/
def C3noStrat : Node :=
  Node.mk "action_node" [("CHECK", leafNode), ("BET", leafNode)] [] [] [] none

theorem C3_resolve_direct : trainerResolveFreqs C6node.strategy "AhAd" = some [1, 0] := by
  simp [trainerResolveFreqs, C6node, Node.strategy, lookupBy]

theorem C3_resolve_none : trainerResolveFreqs C6node.strategy "QdQc" = none := by decide

theorem C3_witness :
    (C3noStrat.strategy = [] ∧ get_action_entries C3noStrat ≠ []
      ∧ gto_freq_for_combo C3noStrat "AhAd" "CHECK"
          = 1 / ((get_action_entries C3noStrat).length : ℚ))
    ∧ (C6node.strategy ≠ []
      ∧ (get_action_entries C6node).find? (fun e => e.1 = "CHECK") = some ("CHECK", 0)
      ∧ trainerResolveFreqs C6node.strategy "AhAd" = some [1, 0]
      ∧ gto_freq_for_combo C6node "AhAd" "CHECK" = ([(1 : ℚ), 0]).getD 0 0)
    ∧ (handsResolveFreqs C6node.strategy "AhAd" = some [1, 0]
      ∧ gto_freq_for_combo_hands C6node "AhAd" "CHECK" = ([(1 : ℚ), 0]).getD 0 0)
    ∧ (trainerResolveFreqs C6node.strategy "QdQc" = none
      ∧ gto_freq_for_combo C6node "QdQc" "CHECK"
          = ((C6node.strategy.map fun p => p.2.getD 0 0).sum) / C6node.strategy.length)
    ∧ (handsResolveFreqs C6node.strategy "QdQc" = none
      ∧ gto_freq_for_combo_hands C6node "QdQc" "CHECK"
          = ((C6node.strategy.map fun p => p.2.getD 0 0).sum) / C6node.strategy.length) := by
  have hs0 : C3noStrat.strategy = [] := rfl
  have he0 : get_action_entries C3noStrat ≠ [] := by
    simp [get_action_entries, C3noStrat, Node.childrens, Node.strategy, withIdx]
  have hs1 : C6node.strategy ≠ [] := by simp [C6node, Node.strategy]
  have hf1 : (get_action_entries C6node).find? (fun e => e.1 = "CHECK")
      = some ("CHECK", 0) := by rw [C6_entries_eval]; decide
  have hrh : handsResolveFreqs C6node.strategy "AhAd" = some [1, 0] := by
    simp [handsResolveFreqs, C6node, Node.strategy, lookupBy]
  have hrhn : handsResolveFreqs C6node.strategy "QdQc" = none := by decide
  have hl : ∀ v ∈ C6node.strategy.map Prod.snd, 0 < v.length := by
    simp [C6node, Node.strategy]
  exact ⟨⟨hs0, he0, (C3_freq.1 C3noStrat hs0 he0 "AhAd" "CHECK").1⟩,
    ⟨hs1, hf1, C3_resolve_direct,
      C3_freq.2.1 C6node "AhAd" "CHECK" 0 [1, 0] hs1 hf1 C3_resolve_direct (by decide)⟩,
    ⟨hrh, C3_freq.2.2.1 C6node "AhAd" "CHECK" 0 [1, 0] hs1 hf1 hrh (by decide)⟩,
    ⟨C3_resolve_none,
      C3_freq.2.2.2.1 C6node "QdQc" "CHECK" 0 hs1 hf1 C3_resolve_none hl⟩,
    ⟨hrhn, C3_freq.2.2.2.2 C6node "QdQc" "CHECK" 0 hs1 hf1 hrhn hl⟩⟩

theorem findSome?_isSome_iff {α β : Type} (f : α → Option β) (l : List α) :
    (l.findSome? f).isSome ↔ ∃ a ∈ l, (f a).isSome := by
  induction l with
  | nil => simp [List.findSome?]
  | cons x xs ih =>
    rw [List.findSome?_cons]
    cases hx : f x with
    | some b => simp [hx]
    | none => simpa [hx] using ih

theorem findSome?_eq_some_mem {α β : Type} {f : α → Option β} {l : List α}
    {b : β} (h : l.findSome? f = some b) : ∃ a ∈ l, f a = some b := by
  induction l with
  | nil => simp [List.findSome?] at h
  | cons x xs ih =>
    rw [List.findSome?_cons] at h
    cases hx : f x with
    | some c =>
      rw [hx] at h
      exact ⟨x, by simp, hx.trans h⟩
    | none =>
      rw [hx] at h
      obtain ⟨a, ha, hfa⟩ := ih h
      exact ⟨a, by simp [ha], hfa⟩

theorem trainer_iso_isSome_iff (S : List (String × List ℚ)) (combo : String)
    (r1 s1 r2 s2 : Char) (rest : List Char)
    (hc : combo.data = r1 :: s1 :: r2 :: s2 :: rest) :
    (find_iso_combo S combo).isSome
      ↔ ∃ perm ∈ SUITS.permutations',
          (lookupBy S (mkCombo r1 (suitMap perm s1) r2 (suitMap perm s2))).isSome := by
  unfold find_iso_combo
  rw [hc]
  rw [findSome?_isSome_iff]
  constructor
  · rintro ⟨perm, hperm, hsome⟩
    refine ⟨perm, hperm, ?_⟩
    by_cases h : (lookupBy S (mkCombo r1 (suitMap perm s1) r2 (suitMap perm s2))).isSome
    · exact h
    · simp [h] at hsome
  · rintro ⟨perm, hperm, hsome⟩
    exact ⟨perm, hperm, by simp [hsome]⟩

theorem hands_iso_isSome_iff (S : List (String × List ℚ)) (combo : String)
    (r1 s1 r2 s2 : Char) (rest : List Char)
    (hc : combo.data = r1 :: s1 :: r2 :: s2 :: rest) :
    (gto_find_iso_combo S combo).isSome
      ↔ ∃ perm ∈ SUITS.permutations',
          ((lookupBy S (mkCombo r1 (suitMap perm s1) r2 (suitMap perm s2))).isSome
            ∨ (lookupBy S (mkCombo r2 (suitMap perm s2) r1 (suitMap perm s1))).isSome) := by
  unfold gto_find_iso_combo
  rw [hc]
  rw [findSome?_isSome_iff]
  constructor
  · rintro ⟨o, ho, hsome⟩
    simp only [List.mem_cons, List.not_mem_nil, or_false] at ho
    rcases ho with ho | ho <;> subst ho <;>
      · rw [findSome?_isSome_iff] at hsome
        obtain ⟨perm, hperm, hcond⟩ := hsome
        simp only at hcond
        refine ⟨perm, hperm, ?_⟩
        by_cases h : (lookupBy S (mkCombo r1 (suitMap perm s1) r2 (suitMap perm s2))).isSome
        · exact Or.inl h
        · by_cases h2 : (lookupBy S (mkCombo r2 (suitMap perm s2) r1 (suitMap perm s1))).isSome
          · exact Or.inr h2
          · simp [h, h2] at hcond
  · rintro ⟨perm, hperm, hAB⟩
    rcases hAB with h | h
    · refine ⟨(r1, s1, r2, s2), by simp, ?_⟩
      rw [findSome?_isSome_iff]
      exact ⟨perm, hperm, by simp [h]⟩
    · refine ⟨(r2, s2, r1, s1), by simp, ?_⟩
      rw [findSome?_isSome_iff]
      exact ⟨perm, hperm, by simp [h]⟩

theorem trainer_iso_mem (S : List (String × List ℚ)) (combo k : String)
    (h : find_iso_combo S combo = some k) : (lookupBy S k).isSome := by
  unfold find_iso_combo at h
  rcases hcd : combo.data with _ | ⟨r1, tl1⟩
  · rw [hcd] at h; exact absurd h (by simp)
  rcases tl1 with _ | ⟨s1, tl2⟩
  · rw [hcd] at h; exact absurd h (by simp)
  rcases tl2 with _ | ⟨r2, tl3⟩
  · rw [hcd] at h; exact absurd h (by simp)
  rcases tl3 with _ | ⟨s2, rest⟩
  · rw [hcd] at h; exact absurd h (by simp)
  rw [hcd] at h
  obtain ⟨perm, _, hf⟩ := findSome?_eq_some_mem h
  simp only at hf
  by_cases hq : (lookupBy S (mkCombo r1 (suitMap perm s1) r2 (suitMap perm s2))).isSome
  · rw [if_pos hq] at hf
    obtain rfl : mkCombo r1 (suitMap perm s1) r2 (suitMap perm s2) = k :=
      Option.some.inj hf
    exact hq
  · rw [if_neg hq] at hf
    exact absurd hf (by simp)

theorem hands_iso_mem (S : List (String × List ℚ)) (combo k : String)
    (h : gto_find_iso_combo S combo = some k) : (lookupBy S k).isSome := by
  unfold gto_find_iso_combo at h
  rcases hcd : combo.data with _ | ⟨r1, tl1⟩
  · rw [hcd] at h; exact absurd h (by simp)
  rcases tl1 with _ | ⟨s1, tl2⟩
  · rw [hcd] at h; exact absurd h (by simp)
  rcases tl2 with _ | ⟨r2, tl3⟩
  · rw [hcd] at h; exact absurd h (by simp)
  rcases tl3 with _ | ⟨s2, rest⟩
  · rw [hcd] at h; exact absurd h (by simp)
  rw [hcd] at h
  obtain ⟨o, _, hinner⟩ := findSome?_eq_some_mem h
  obtain ⟨perm, _, hf⟩ := findSome?_eq_some_mem hinner
  simp only at hf
  by_cases hq : (lookupBy S (mkCombo o.1 (suitMap perm o.2.1) o.2.2.1
      (suitMap perm o.2.2.2))).isSome
  · rw [if_pos hq] at hf
    obtain rfl : mkCombo o.1 (suitMap perm o.2.1) o.2.2.1 (suitMap perm o.2.2.2) = k :=
      Option.some.inj hf
    exact hq
  · rw [if_neg hq] at hf
    exact absurd hf (by simp)

/-- One-key strategy table storing only the rank-swapped form of AcKc. -/
def C2S : List (String × List ℚ) := [("KcAc", [1])]

/-- C2 counterexample: "KcAc" is a rank-ordering/suit-permutation image of
"AcKc" (swapped rank order under the identity permutation) and is a key of
the table, yet the trainer's resolver finds nothing — it never tries the
swapped rank order — while the hands resolver finds the key. -/
theorem C2_counterexample :
    (lookupBy C2S "KcAc").isSome = true
    ∧ ("AcKc").data = ['A', 'c', 'K', 'c']
    ∧ mkCombo 'K' (suitMap SUITS 'c') 'A' (suitMap SUITS 'c') = "KcAc"
    ∧ SUITS ∈ SUITS.permutations'
    ∧ find_iso_combo C2S "AcKc" = none
    ∧ trainerResolveFreqs C2S "AcKc" = none
    ∧ gto_find_iso_combo C2S "AcKc" = some "KcAc" := by
  refine ⟨by decide, by decide, by decide, by decide, by decide, ?_, by decide⟩
  have h1 : lookupBy C2S "AcKc" = none := by decide
  have hfi : find_iso_combo C2S "AcKc" = none := by decide
  unfold trainerResolveFreqs
  rw [h1, hfi]

/-- C2 amended: both resolvers look the combo up directly first; the hands
resolver returns a key of the table exactly when some suit-permutation image
of the combo, in either rank order, is a key, while the trainer resolver
searches only the combo's given rank order.  `SUITS.permutations'` enumerates
exactly the 24 permutations of the four suits. -/
theorem C2_amended :
    (∀ (S : List (String × List ℚ)) (c : String) (v : List ℚ),
      lookupBy S c = some v →
      trainerResolveFreqs S c = some v ∧ handsResolveFreqs S c = some v)
    ∧ (∀ (S : List (String × List ℚ)) (c : String) (r1 s1 r2 s2 : Char)
        (rest : List Char), c.data = r1 :: s1 :: r2 :: s2 :: rest →
        ((find_iso_combo S c).isSome ↔ ∃ perm ∈ SUITS.permutations',
          (lookupBy S (mkCombo r1 (suitMap perm s1) r2 (suitMap perm s2))).isSome))
    ∧ (∀ (S : List (String × List ℚ)) (c : String) (r1 s1 r2 s2 : Char)
        (rest : List Char), c.data = r1 :: s1 :: r2 :: s2 :: rest →
        ((gto_find_iso_combo S c).isSome ↔ ∃ perm ∈ SUITS.permutations',
          ((lookupBy S (mkCombo r1 (suitMap perm s1) r2 (suitMap perm s2))).isSome
            ∨ (lookupBy S (mkCombo r2 (suitMap perm s2) r1 (suitMap perm s1))).isSome)))
    ∧ (∀ (S : List (String × List ℚ)) (c k : String),
        find_iso_combo S c = some k → (lookupBy S k).isSome)
    ∧ (∀ (S : List (String × List ℚ)) (c k : String),
        gto_find_iso_combo S c = some k → (lookupBy S k).isSome)
    ∧ (∀ p : List Char, p ∈ SUITS.permutations' ↔ p.Perm SUITS)
    ∧ (SUITS.permutations').length = 24 := by
  refine ⟨fun S c v h => ?_, trainer_iso_isSome_iff, hands_iso_isSome_iff,
    trainer_iso_mem, hands_iso_mem, fun p => List.mem_permutations', by decide⟩
  constructor
  · unfold trainerResolveFreqs
    rw [h]
  · unfold handsResolveFreqs
    rw [h]

theorem C2_witness :
    (lookupBy C2S "KcAc" = some [1]
      ∧ trainerResolveFreqs C2S "KcAc" = some [1]
      ∧ handsResolveFreqs C2S "KcAc" = some [1])
    ∧ ("AcKc").data = ['A', 'c', 'K', 'c']
    ∧ ((find_iso_combo C2S "AcKc").isSome ↔ ∃ perm ∈ SUITS.permutations',
        (lookupBy C2S (mkCombo 'A' (suitMap perm 'c') 'K' (suitMap perm 'c'))).isSome)
    ∧ ((gto_find_iso_combo C2S "AcKc").isSome ↔ ∃ perm ∈ SUITS.permutations',
        ((lookupBy C2S (mkCombo 'A' (suitMap perm 'c') 'K' (suitMap perm 'c'))).isSome
          ∨ (lookupBy C2S (mkCombo 'K' (suitMap perm 'c') 'A' (suitMap perm 'c'))).isSome))
    ∧ gto_find_iso_combo C2S "AcKc" = some "KcAc"
    ∧ (lookupBy C2S "KcAc").isSome := by
  have hdir : lookupBy C2S "KcAc" = some [1] := by simp [lookupBy, C2S]
  have hdata : ("AcKc").data = ['A', 'c', 'K', 'c'] := by decide
  have hg : gto_find_iso_combo C2S "AcKc" = some "KcAc" := by decide
  exact ⟨⟨hdir, (C2_amended.1 C2S "KcAc" [1] hdir).1, (C2_amended.1 C2S "KcAc" [1] hdir).2⟩,
    hdata, C2_amended.2.1 C2S "AcKc" 'A' 'c' 'K' 'c' [] hdata,
    C2_amended.2.2.1 C2S "AcKc" 'A' 'c' 'K' 'c' [] hdata,
    hg, C2_amended.2.2.2.2.1 C2S "AcKc" "KcAc" hg⟩

/-- Document whose chance root stores its children under `dealcards` (the
field the hand-analysis navigator reads) only. -/
def C9doc : Node := Node.mk "chance_node" [] [] [("2c", leafNode)] [] none

/-- C9 counterexample: on a chance node carrying its children in
`dealcards`, the trainer navigator (which reads `childrens` then
`deal_cards`) treats the child as absent while the hand-analysis navigator
descends, so the two implementations disagree. -/
theorem C9_counterexample :
    navigate_tree C9doc ["2c"] = none
    ∧ gto_navigate_tree C9doc ["2c"] = some leafNode
    ∧ navigate_tree C9doc ["2c"] ≠ gto_navigate_tree C9doc ["2c"] := by
  refine ⟨rfl, rfl, ?_⟩
  intro h
  rw [show navigate_tree C9doc ["2c"] = none from rfl,
    show gto_navigate_tree C9doc ["2c"] = some leafNode from rfl] at h
  exact Option.noConfusion h

/-- C9 amended: the two navigators agree on every traversal in which, at
every node actually visited along it, the trainer's effective child map
(`childrens` when nonempty, else `deal_cards`) coincides with the
hand-analysis child map (`dealcards` for a chance node, else `childrens`);
because they consult different chance-node fields, they can disagree when
those maps differ (see the counterexample). -/
theorem C9_amended :
    ∀ (path : List String) (node : Node),
      (∀ k, k < path.length → ∀ m, navigate_tree node (path.take k) = some m →
        trainerChildrenOf m = handsChildrenOf m) →
      navigate_tree node path = gto_navigate_tree node path := by
  intro path
  induction path with
  | nil => intro node _; rfl
  | cons step rest ih =>
    intro node H
    have h0 : trainerChildrenOf node = handsChildrenOf node :=
      H 0 (by simp) node rfl
    show (match lookupBy (trainerChildrenOf node) step with
      | none => none
      | some child => navigate_tree child rest) = _
    have hg : gto_navigate_tree node (step :: rest)
        = (match lookupBy (handsChildrenOf node) step with
          | none => none
          | some c => gto_navigate_tree c rest) := rfl
    rw [h0, hg]
    cases hlk : lookupBy (handsChildrenOf node) step with
    | none => rfl
    | some child =>
      refine ih child ?_
      intro k hk m hm
      refine H (k + 1) (by simpa using hk) m ?_
      rw [List.take_succ_cons]
      show (match lookupBy (trainerChildrenOf node) step with
        | none => none
        | some c => navigate_tree c (rest.take k)) = some m
      rw [h0, hlk]
      exact hm

/-- Document on which both navigators agree (a plain action node). -/
def C9agree : Node := Node.mk "action_node" [("CHECK", leafNode)] [] [] [] none

theorem C9_witness :
    (∀ k, k < (["CHECK"] : List String).length → ∀ m,
        navigate_tree C9agree ((["CHECK"] : List String).take k) = some m →
        trainerChildrenOf m = handsChildrenOf m)
    ∧ navigate_tree C9agree ["CHECK"] = gto_navigate_tree C9agree ["CHECK"] := by
  have hH : ∀ k, k < (["CHECK"] : List String).length → ∀ m,
      navigate_tree C9agree ((["CHECK"] : List String).take k) = some m →
      trainerChildrenOf m = handsChildrenOf m := by
    intro k hk m hm
    have hk0 : k = 0 := by simpa using hk
    subst hk0
    obtain rfl : C9agree = m := Option.some.inj hm
    rfl
  exact ⟨hH, C9_amended ["CHECK"] C9agree hH⟩

theorem mem_combosFromSuitPairs {r1 r2 : Char} {pairs : List (Char × Char)}
    {board : List String} {x : String}
    (hx : x ∈ combosFromSuitPairs r1 r2 pairs board) :
    ∃ p ∈ pairs, x = mkCard r1 p.1 ++ mkCard r2 p.2
      ∧ mkCard r1 p.1 ∉ board ∧ mkCard r2 p.2 ∉ board := by
  rw [combosFromSuitPairs, List.mem_filterMap] at hx
  obtain ⟨p, hp, hfp⟩ := hx
  by_cases hc : mkCard r1 p.1 ∉ board ∧ mkCard r2 p.2 ∉ board
  · rw [if_pos hc] at hfp
    exact ⟨p, hp, (Option.some.inj hfp).symm, hc.1, hc.2⟩
  · rw [if_neg hc] at hfp
    exact absurd hfp (by simp)

theorem mem_expandToken {hand : List Char} {board : List String} {x : String}
    (hx : x ∈ expandToken hand board) :
    ∃ c1 c2 : String, x = c1 ++ c2 ∧ c1 ∉ board ∧ c2 ∉ board := by
  unfold expandToken at hx
  split at hx
  · split at hx <;>
      · obtain ⟨p, _, hxe, h1, h2⟩ := mem_combosFromSuitPairs hx
        exact ⟨_, _, hxe, h1, h2⟩
  · split at hx
    · obtain ⟨p, _, hxe, h1, h2⟩ := mem_combosFromSuitPairs hx
      exact ⟨_, _, hxe, h1, h2⟩
    · split at hx
      · obtain ⟨p, _, hxe, h1, h2⟩ := mem_combosFromSuitPairs hx
        exact ⟨_, _, hxe, h1, h2⟩
      · exact absurd hx (by simp)
  · exact absurd hx (by simp)

/-- The board-collision test on a produced 4-character combo: both of its
cards must avoid the board (matches the guard of `_parse_range_to_combos`). -/
def comboClean (board : List String) (x : String) : Bool :=
  match x.data with
  | [a, b, c, d] => decide (String.mk [a, b] ∉ board ∧ String.mk [c, d] ∉ board)
  | _ => false

theorem comboClean_combo (board : List String) (r1 s1 r2 s2 : Char) :
    comboClean board (mkCard r1 s1 ++ mkCard r2 s2)
      = decide (mkCard r1 s1 ∉ board ∧ mkCard r2 s2 ∉ board) := rfl

theorem combosFromSuitPairs_filter (r1 r2 : Char) (pairs : List (Char × Char))
    (board : List String) :
    combosFromSuitPairs r1 r2 pairs board
      = (combosFromSuitPairs r1 r2 pairs []).filter (comboClean board) := by
  induction pairs with
  | nil => rfl
  | cons p ps ih =>
    simp only [combosFromSuitPairs, List.filterMap_cons] at ih ⊢
    rw [show (if mkCard r1 p.1 ∉ ([] : List String) ∧ mkCard r2 p.2 ∉ ([] : List String)
        then some (mkCard r1 p.1 ++ mkCard r2 p.2) else none)
      = some (mkCard r1 p.1 ++ mkCard r2 p.2) from if_pos (by simp)]
    by_cases hc : mkCard r1 p.1 ∉ board ∧ mkCard r2 p.2 ∉ board
    · rw [if_pos hc, List.filter_cons]
      have hcc : comboClean board (mkCard r1 p.1 ++ mkCard r2 p.2) = true := by
        rw [comboClean_combo]
        exact decide_eq_true hc
      rw [hcc]
      simp only [if_pos]
      rw [ih]
    · rw [if_neg hc, List.filter_cons]
      have hcc : comboClean board (mkCard r1 p.1 ++ mkCard r2 p.2) = false := by
        rw [comboClean_combo]
        exact decide_eq_false hc
      rw [hcc]
      simp only [Bool.false_eq_true, if_false]
      rw [ih]

theorem expandToken_filter (hand : List Char) (board : List String) :
    expandToken hand board = (expandToken hand []).filter (comboClean board) := by
  unfold expandToken
  split
  · split
    · exact combosFromSuitPairs_filter _ _ _ _
    · exact combosFromSuitPairs_filter _ _ _ _
  · split
    · exact combosFromSuitPairs_filter _ _ _ _
    · split
      · exact combosFromSuitPairs_filter _ _ _ _
      · rfl
  · rfl

theorem parse_range_filter (R : String) (board : List String) :
    parse_range_to_combos R board
      = (parse_range_to_combos R []).filter (comboClean board) := by
  unfold parse_range_to_combos
  generalize ((splitOnSep ',' R.data).map pyStrip).filter (fun t => t ≠ []) = ts
  induction ts with
  | nil => rfl
  | cons t ts ih =>
    simp only [List.flatMap_cons, List.filter_append, ih]
    rw [expandToken_filter]

/-- C8: expansion equals the unconstrained candidate expansion filtered by
the board-collision test, so the result is empty exactly when every
generated candidate collides with an excluded card, and is nonempty as soon
as one candidate is disjoint from them; `start_session` surfaces an empty
expansion as an internal error and accepts any nonempty expansion. -/
theorem C8_empty_expansion :
    (∀ (R : String) (b : List String),
      parse_range_to_combos R b = (parse_range_to_combos R []).filter (comboClean b))
    ∧ (∀ (R : String) (b : List String),
        parse_range_to_combos R b = []
          ↔ ∀ x ∈ parse_range_to_combos R [], comboClean b x = false)
    ∧ (∀ (R : String) (b : List String) (x : String),
        x ∈ parse_range_to_combos R [] → comboClean b x = true →
        parse_range_to_combos R b ≠ [])
    ∧ (∀ combos : List String,
        (startComboCheck combos
            = Except.error "No valid combos after board removal" ↔ combos = [])
        ∧ (combos ≠ [] → startComboCheck combos = Except.ok combos)) := by
  refine ⟨parse_range_filter, fun R b => ?_, fun R b x hx hc => ?_,
    fun combos => ⟨?_, fun h => by simp [startComboCheck, h]⟩⟩
  · rw [parse_range_filter, List.filter_eq_nil_iff]
    simp only [Bool.not_eq_true]
  · rw [parse_range_filter]
    intro hnil
    rw [List.filter_eq_nil_iff] at hnil
    exact absurd hc (by simpa using hnil x hx)
  · by_cases hc : combos = []
    · simp [startComboCheck, hc]
    · simp [startComboCheck, hc]

theorem C8_witness :
    ("AcAd" ∈ parse_range_to_combos "AA" [] ∧ comboClean ["Kc"] "AcAd" = true
      ∧ parse_range_to_combos "AA" ["Kc"] ≠ [])
    ∧ (["AcAd"] : List String) ≠ []
    ∧ startComboCheck ["AcAd"] = Except.ok ["AcAd"]
    ∧ parse_range_to_combos "AA" ["Ac", "Ad", "Ah", "As"] = []
    ∧ (∀ x ∈ parse_range_to_combos "AA" [],
        comboClean ["Ac", "Ad", "Ah", "As"] x = false) := by
  have h1 : "AcAd" ∈ parse_range_to_combos "AA" [] := by decide
  have h2 : comboClean ["Kc"] "AcAd" = true := by decide
  have h4 : parse_range_to_combos "AA" ["Ac", "Ad", "Ah", "As"] = [] := by decide
  exact ⟨⟨h1, h2, C8_empty_expansion.2.2.1 "AA" ["Kc"] "AcAd" h1 h2⟩,
    by simp, (C8_empty_expansion.2.2.2 ["AcAd"]).2 (by simp),
    h4, (C8_empty_expansion.2.1 "AA" ["Ac", "Ad", "Ah", "As"]).mp h4⟩

/-- Hero action node (solver `player` = 1 = IP) reached after the deal. -/
def C1hero : Node :=
  Node.mk "action_node" [("CHECK", leafNode)] [] [] [("AhKh", [1])] (some 1)

/-- Chance root whose only dealable card is the Ah — which is also one of
the hero's hole cards. -/
def C1tree : Node := Node.mk "chance_node" [] [("Ah", C1hero)] [] [] none

/-- C1: the trainer's auto-advance draws the dealt card from ALL
`deal_cards` keys without excluding the hero's hole cards, so with hero
combo "AhKh" the board card "Ah" — the hero's own first hole card — is
dealt (with certainty here, whatever the random stream does), and the
resulting session path contains a dealt card equal to a hero hole card. -/
theorem C1_code_bug :
    ∀ rng : Rng,
      (advance_to_hero 2 C1tree [] "ip" "AhKh" rng).node_path = ["Ah"]
      ∧ (advance_to_hero 2 C1tree [] "ip" "AhKh" rng).new_board_cards = ["Ah"]
      ∧ (advance_to_hero 2 C1tree [] "ip" "AhKh" rng).next = some C1hero
      ∧ ("AhKh" : String) = "Ah" ++ "Kh" := by
  intro rng
  have h : advance_to_hero 2 C1tree [] "ip" "AhKh" rng
      = ⟨some C1hero, ["Ah"], ["Ah"], none⟩ := by
    show advanceLoop C1tree "ip" "AhKh" (1 + 1) (some C1tree) [] [] none rng = _
    simp [advanceLoop, C1tree, C1hero, Node.node_type, Node.deal_cards,
      Node.player, is_villain_node, navigate_tree, lookupBy, trainerChildrenOf,
      Nat.mod_one]
  rw [h]
  refine ⟨rfl, rfl, rfl, rfl⟩

theorem navigate_append (p : List String) :
    ∀ (tree : Node) (a : String),
      navigate_tree tree (p ++ [a])
        = match navigate_tree tree p with
          | none => none
          | some n => lookupBy (trainerChildrenOf n) a := by
  induction p with
  | nil =>
    intro tree a
    show (match lookupBy (trainerChildrenOf tree) a with
      | none => none
      | some child => navigate_tree child []) = _
    cases hlk : lookupBy (trainerChildrenOf tree) a with
    | none => simp [navigate_tree, hlk]
    | some child => simp [navigate_tree, hlk]
  | cons step rest ih =>
    intro tree a
    show (match lookupBy (trainerChildrenOf tree) step with
      | none => none
      | some child => navigate_tree child (rest ++ [a])) = _
    cases hlk : lookupBy (trainerChildrenOf tree) step with
    | none =>
      have hnv : navigate_tree tree (step :: rest) = none := by
        show (match lookupBy (trainerChildrenOf tree) step with
          | none => none
          | some child => navigate_tree child rest) = none
        rw [hlk]
      rw [hnv]
    | some child =>
      have hnv : navigate_tree tree (step :: rest) = navigate_tree child rest := by
        show (match lookupBy (trainerChildrenOf tree) step with
          | none => none
          | some child => navigate_tree child rest) = _
        rw [hlk]
      rw [hnv]
      exact ih child a

theorem withIdx_map_fst (ks : List String) : ∀ i, (withIdx ks i).map Prod.fst = ks := by
  induction ks with
  | nil => intro i; rfl
  | cons k ks ih => intro i; simp [withIdx, ih]

theorem entries_no_strategy (node : Node) (hs : node.strategy = []) :
    get_action_entries node = withIdx (node.childrens.map Prod.fst) 0 := by
  simp only [get_action_entries]
  rw [if_pos hs]

theorem entries_fold_case (node : Node) (hs : ¬ node.strategy = [])
    (hl : (((node.strategy.head?).map Prod.snd).getD []).length
      = (node.childrens.map Prod.fst).length + 1) :
    get_action_entries node = ("FOLD", 0) :: withIdx (node.childrens.map Prod.fst) 1 := by
  simp only [get_action_entries]
  rw [if_neg hs, if_pos hl]

theorem entries_plain_case (node : Node) (hs : ¬ node.strategy = [])
    (hl : ¬ (((node.strategy.head?).map Prod.snd).getD []).length
      = (node.childrens.map Prod.fst).length + 1) :
    get_action_entries node = withIdx (node.childrens.map Prod.fst) 0 := by
  simp only [get_action_entries]
  rw [if_neg hs, if_neg hl]

theorem mem_entry_names_of_child (node : Node) (k : String)
    (hk : k ∈ node.childrens.map Prod.fst) :
    k ∈ (get_action_entries node).map Prod.fst := by
  by_cases hs : node.strategy = []
  · rw [entries_no_strategy node hs, withIdx_map_fst]
    exact hk
  · by_cases hl : (((node.strategy.head?).map Prod.snd).getD []).length
        = (node.childrens.map Prod.fst).length + 1
    · rw [entries_fold_case node hs hl]
      simp only [List.map_cons, withIdx_map_fst]
      exact List.mem_cons_of_mem _ hk
    · rw [entries_plain_case node hs hl, withIdx_map_fst]
      exact hk

theorem lookupBy_eq_none_of_not_mem {β : Type} (l : List (String × β)) (a : String)
    (h : a ∉ l.map Prod.fst) : lookupBy l a = none := by
  induction l with
  | nil => rfl
  | cons p ps ih =>
    simp only [List.map_cons, List.mem_cons] at h
    push_neg at h
    show (if p.1 = a then some p.2 else lookupBy ps a) = none
    rw [if_neg (fun he => h.1 he.symm)]
    exact ih h.2

theorem trainerChildrenOf_of_ne (node : Node) (hc : node.childrens ≠ []) :
    trainerChildrenOf node = node.childrens := by
  unfold trainerChildrenOf
  cases hq : node.childrens with
  | nil => exact absurd hq hc
  | cons x xs => rfl

theorem advanceLoop_none (tree : Node) (hp hc : String) (fuel : Nat)
    (path nb : List String) (lv : Option String) (rng : Rng) :
    advanceLoop tree hp hc fuel none path nb lv rng = ⟨none, path, nb, lv⟩ := by
  cases fuel <;> rfl

/-- C10 counterexample: at a node with two children and NO strategy table,
submitting the bogus label "XYZ" is accepted and recorded — but with GTO
frequency 1/2 (the uniform `1/entryCount`), not 0.0 as the claim states. -/
theorem C10_counterexample :
    (submit_action_core 5 C3noStrat [] "ip" "AhKh" "XYZ" 10 10 ⟨[], []⟩).map
        (fun r => (r.decision.gto_freq, r.is_terminal, r.node_type_out, r.node_path))
      = some (1/2, true, "terminal", ["XYZ"])
    ∧ ((1 : ℚ)/2) ≠ 0 := by
  constructor
  · have hfreq : gto_freq_for_combo C3noStrat "AhKh" "XYZ" = 1/2 := by
      have h1 : C3noStrat.strategy = [] := rfl
      simp only [gto_freq_for_combo, freqForCombo, h1, eq_self_iff_true, if_true]
      rw [show get_action_entries C3noStrat = [("CHECK", 0), ("BET", 1)] from rfl]
      norm_num
    unfold submit_action_core
    rw [show navigate_tree C3noStrat [] = some C3noStrat from rfl]
    simp only [hfreq]
    rw [show advance_to_hero 5 C3noStrat ([] ++ ["XYZ"]) "ip" "AhKh" ⟨[], []⟩
        = ⟨none, ["XYZ"], [], none⟩ from by
      unfold advance_to_hero
      rw [show navigate_tree C3noStrat ([] ++ ["XYZ"]) = none from rfl]
      exact advanceLoop_none _ _ _ _ _ _ _ _]
    rfl
  · norm_num

/-- C10 amended: submit_action accepts and records ANY chosen label; when
the node carries a strategy table and the label matches no ActionEntry the
recorded GTO frequency is 0.0 (for a node with no strategy table the
unmatched label instead receives the uniform `1/entryCount`); the label is
appended to the path, navigation finds no child for it, and the returned
state is terminal. -/
theorem C10_amended :
    ∀ (fuel : Nat) (tree : Node) (path : List String) (node : Node)
      (hero_position hero_combo chosen : String) (pot ipot : ℚ) (rng : Rng),
      navigate_tree tree path = some node →
      node.strategy ≠ [] →
      node.childrens ≠ [] →
      (get_action_entries node).find? (fun e => e.1 = chosen) = none →
      submit_action_core fuel tree path hero_position hero_combo chosen pot ipot rng
        = some
          { decision :=
              { node_path := path, chosen_action := chosen, gto_freq := 0,
                all_actions := available_actions node hero_combo,
                pot_weight := pot / max ipot 1, street := compute_street path },
            node_path := path ++ [chosen], is_terminal := true,
            node_type_out := "terminal" } := by
  intro fuel tree path node hero_position hero_combo chosen pot ipot rng
    hnav hs hc hfind
  have hfreq : gto_freq_for_combo node hero_combo chosen = 0 := by
    unfold gto_freq_for_combo freqForCombo
    rw [if_neg hs, hfind]
  have hnotmem : chosen ∉ node.childrens.map Prod.fst := by
    intro hmem
    have hnames := mem_entry_names_of_child node chosen hmem
    rw [List.mem_map] at hnames
    obtain ⟨e, he, hefst⟩ := hnames
    have := List.find?_eq_none.mp hfind e he
    simp [hefst] at this
  have hnav2 : navigate_tree tree (path ++ [chosen]) = none := by
    rw [navigate_append, hnav]
    show lookupBy (trainerChildrenOf node) chosen = none
    rw [trainerChildrenOf_of_ne node hc]
    exact lookupBy_eq_none_of_not_mem _ _ hnotmem
  have hadv : advance_to_hero fuel tree (path ++ [chosen]) hero_position hero_combo rng
      = ⟨none, path ++ [chosen], [], none⟩ := by
    unfold advance_to_hero
    rw [hnav2]
    exact advanceLoop_none _ _ _ _ _ _ _ _
  unfold submit_action_core
  rw [hnav]
  simp only [hadv, hfreq]

theorem C10_witness :
    navigate_tree C6node [] = some C6node
    ∧ C6node.strategy ≠ []
    ∧ C6node.childrens ≠ []
    ∧ (get_action_entries C6node).find? (fun e => e.1 = "XYZ") = none
    ∧ submit_action_core 7 C6node [] "ip" "AhAd" "XYZ" 12 10 ⟨[3], [1/2]⟩
        = some
          { decision :=
              { node_path := [], chosen_action := "XYZ", gto_freq := 0,
                all_actions := available_actions C6node "AhAd",
                pot_weight := 12 / max 10 1, street := compute_street [] },
            node_path := ["XYZ"], is_terminal := true,
            node_type_out := "terminal" } := by
  have h1 : navigate_tree C6node [] = some C6node := rfl
  have h2 : C6node.strategy ≠ [] := by simp [C6node, Node.strategy]
  have h3 : C6node.childrens ≠ [] := by simp [C6node, Node.childrens]
  have h4 : (get_action_entries C6node).find? (fun e => e.1 = "XYZ") = none := by
    rw [C6_entries_eval]; decide
  exact ⟨h1, h2, h3, h4,
    C10_amended 7 C6node [] C6node "ip" "AhAd" "XYZ" 12 10 ⟨[3], [1/2]⟩ h1 h2 h3 h4⟩

/-- C5: `_grade_action` is a pure total function of the frequency with the
exact boundaries best >= 0.75 > correct >= 0.40 > inaccuracy >= 0.15 >
wrong >= 0.05 > blunder, and the boundary samples evaluate as claimed. -/
theorem C5_grade :
    (∀ f : ℚ,
      (grade_action f = "best" ↔ 0.75 ≤ f)
      ∧ (grade_action f = "correct" ↔ 0.40 ≤ f ∧ f < 0.75)
      ∧ (grade_action f = "inaccuracy" ↔ 0.15 ≤ f ∧ f < 0.40)
      ∧ (grade_action f = "wrong" ↔ 0.05 ≤ f ∧ f < 0.15)
      ∧ (grade_action f = "blunder" ↔ f < 0.05))
    ∧ grade_action 0.75 = "best" ∧ grade_action 0.749999 = "correct"
    ∧ grade_action 0.05 = "wrong" ∧ grade_action 0 = "blunder" := by
  refine ⟨fun f => ?_, by norm_num [grade_action], by norm_num [grade_action],
    by norm_num [grade_action], by norm_num [grade_action]⟩
  unfold grade_action
  split_ifs with h1 h2 h3 h4 <;>
    refine ⟨?_, ?_, ?_, ?_, ?_⟩ <;> constructor <;> intro h <;>
    first
      | rfl
      | (exact absurd h (by decide))
      | (exact ⟨by linarith, by linarith⟩)
      | linarith
